import Mathlib

/-!
Verification of the MagicDec inference-engine core (src/Engine/model.py and
src/Engine/model_selfspec.py) against its natural-language specification.

The Python code is shallowly embedded: machine floats are modelled as
rationals (every IEEE float is a rational; the value of 2*pi is kept as an
explicit parameter `twoPi`), tensors are modelled as lists (one list per
batch row / per position), and fallible Python operations (assert failures,
IndexError, TypeError on None arithmetic) are modelled with an explicit
result type.  The transcendental tail of `precompute_freqs_cis`
(base**(-2i/n), cos, sin) is kept as an abstract input: the claims under
study only concern the rational frequency-rescaling stage, the cache update
logic, the configuration logic and the wiring, all of which are embedded
verbatim.
-/

namespace MagicDec

/-- Runtime error kinds raised by the embedded Python fragments. -/
inductive PyErr where
  | assertionError
  | indexError
  | typeError
deriving DecidableEq

/-- Result of a fallible Python computation. -/
inductive PyResult (α : Type) where
  | ok : α → PyResult α
  | error : PyErr → PyResult α
deriving DecidableEq

/-- `find_multiple` from model.py lines 11-14: round `n` up to a multiple of `k`. -/
def find_multiple (n k : Nat) : Nat :=
  if n % k = 0 then n else n + k - n % k

/-- `ModelArgs` dataclass (model.py lines 16-32), with its field defaults.
Floats are embedded as rationals. -/
structure ModelArgs where
  block_size : Nat := 2048
  vocab_size : Nat := 32000
  n_layer : Nat := 32
  n_head : Nat := 32
  dim : Nat := 4096
  intermediate_size : Option Nat := none
  n_local_heads : Int := -1
  head_dim : Nat := 64
  rope_base : ℚ := 10000
  norm_eps : ℚ := 1 / 100000
  scaling_factor : ℚ := 1
  low_freq_factor : Option ℚ := none
  high_freq_factor : Option ℚ := none
  original_max_position_embeddings : Option ℚ := none
deriving DecidableEq

/-- `ModelArgs.__post_init__` (model.py lines 34-41): fill `n_local_heads` from
`n_head` when it is -1, fill `intermediate_size` when unset, and overwrite
`head_dim` with `dim // n_head`.  `int(2 * hidden_dim / 3)` truncates a
positive float, which agrees with natural-number division here. -/
def ModelArgs.postInit (a : ModelArgs) : ModelArgs :=
  { a with
    n_local_heads := if a.n_local_heads = -1 then (a.n_head : Int) else a.n_local_heads,
    intermediate_size := some (match a.intermediate_size with
      | some v => v
      | none => find_multiple (2 * (4 * a.dim) / 3) 256),
    head_dim := a.dim / a.n_head }

/-- Constructing a `ModelArgs` as the dataclass does: record literal followed
by `__post_init__`. -/
def mkModelArgs (a : ModelArgs) : ModelArgs := a.postInit

/-- Table entry "llama-2-7b" of `transformer_configs` (model.py line 59). -/
def cfg_llama_2_7b : ModelArgs :=
  mkModelArgs { block_size := 4096, n_layer := 32, n_head := 32, dim := 4096 }

/-- Table entry "llama-2-7b-32k" (model.py line 60). -/
def cfg_llama_2_7b_32k : ModelArgs :=
  mkModelArgs { block_size := 32768, n_layer := 32, dim := 4096, vocab_size := 32000,
                scaling_factor := 8 }

/-- Table entry "llama-2-13b" (model.py line 61). -/
def cfg_llama_2_13b : ModelArgs :=
  mkModelArgs { block_size := 4096, n_layer := 40, n_head := 40, dim := 5120 }

/-- Table entry "llama-2-70b" (model.py line 62). -/
def cfg_llama_2_70b : ModelArgs :=
  mkModelArgs { block_size := 4096, n_layer := 80, n_head := 64, dim := 8192,
                n_local_heads := 8, intermediate_size := some 28672 }

/-- Table entry "llama-3-8b" (model.py line 63). -/
def cfg_llama_3_8b : ModelArgs :=
  mkModelArgs { block_size := 8192, n_layer := 32, n_head := 32, n_local_heads := 8,
                dim := 4096, intermediate_size := some 14336, vocab_size := 128256,
                rope_base := 500000 }

/-- Table entry "llama-3-70b" (model.py line 64). -/
def cfg_llama_3_70b : ModelArgs :=
  mkModelArgs { block_size := 8192, n_layer := 80, n_head := 64, n_local_heads := 8,
                dim := 8192, intermediate_size := some 28672, vocab_size := 128256,
                rope_base := 500000 }

/-- Table entry "68m" (model.py line 65). -/
def cfg_68m : ModelArgs :=
  mkModelArgs { block_size := 2048, n_layer := 2, n_head := 12, n_local_heads := 12,
                dim := 768, intermediate_size := some 3072, vocab_size := 32000 }

/-- Table entry "tinyllama" (model.py line 66). -/
def cfg_tinyllama : ModelArgs :=
  mkModelArgs { block_size := 2048, n_layer := 22, n_head := 32, n_local_heads := 4,
                dim := 2048, intermediate_size := some 5632, vocab_size := 32000 }

/-- Table entry "llama-3.1-8b" (model.py line 67). -/
def cfg_llama_3_1_8b : ModelArgs :=
  mkModelArgs { block_size := 131072, n_layer := 32, n_head := 32, n_local_heads := 8,
                dim := 4096, intermediate_size := some 14336, vocab_size := 128256,
                rope_base := 500000, scaling_factor := 8, high_freq_factor := some 4,
                low_freq_factor := some 1,
                original_max_position_embeddings := some 8192 }

/-- The `transformer_configs` dictionary (model.py lines 58-68), as an ordered
association list of key string (as a character list) and resolved config. -/
def transformer_configs : List (List Char × ModelArgs) :=
  [("llama-2-7b".toList, cfg_llama_2_7b),
   ("llama-2-7b-32k".toList, cfg_llama_2_7b_32k),
   ("llama-2-13b".toList, cfg_llama_2_13b),
   ("llama-2-70b".toList, cfg_llama_2_70b),
   ("llama-3-8b".toList, cfg_llama_3_8b),
   ("llama-3-70b".toList, cfg_llama_3_70b),
   ("68m".toList, cfg_68m),
   ("tinyllama".toList, cfg_tinyllama),
   ("llama-3.1-8b".toList, cfg_llama_3_1_8b)]

/-- Python `str.lower`, restricted to the ASCII strings used by the table. -/
def strLower (s : List Char) : List Char := s.map Char.toLower

/-- Python's `in` on strings: `pat` occurs as a contiguous segment of `l`. -/
def isSubstringOf (pat l : List Char) : Bool :=
  l.tails.any (fun t => pat.isPrefixOf t)

/-- The fuzzy-match candidate list built by `ModelArgs.from_name`
(model.py line 48): keys that occur case-insensitively inside `name`. -/
def fuzzyMatches (name : List Char) : List (List Char × ModelArgs) :=
  transformer_configs.filter (fun p => isSubstringOf (strLower p.1) (strLower name))

/-- Descending comparison on key length, used to model
`config.sort(key=len, reverse=True)` (model.py line 52). -/
def keyLenGe (p q : List Char × ModelArgs) : Prop := q.1.length ≤ p.1.length

instance : DecidableRel keyLenGe := fun p q => Nat.decLe q.1.length p.1.length

instance : IsTotal (List Char × ModelArgs) keyLenGe :=
  ⟨fun a b => Nat.le_total b.1.length a.1.length⟩

instance : IsTrans (List Char × ModelArgs) keyLenGe :=
  ⟨fun _ _ _ h1 h2 => le_trans h2 h1⟩

/-- `ModelArgs.from_name` (model.py lines 43-55).  Exact dictionary hit first;
otherwise case-insensitive substring matching, a descending sort by key
length when more than one key matches, the `assert` that the two longest
matches have different lengths, and the final `config[0]` lookup, which
raises IndexError on an empty candidate list. -/
def from_name (name : List Char) : PyResult ModelArgs :=
  match transformer_configs.find? (fun q => q.1 == name) with
  | some p => .ok p.2
  | none =>
    let config := fuzzyMatches name
    if 1 < config.length then
      match List.insertionSort keyLenGe config with
      | a :: b :: _ =>
        if a.1.length = b.1.length then .error .assertionError else .ok a.2
      | _ => .error .assertionError
    else
      match config with
      | [] => .error .indexError
      | p :: _ => .ok p.2

/-- One step of `_compute_llama3_parameters`'s loop body
(model.py lines 269-278) for a single base inverse frequency `f`.
`L` is `old_context_len`, `sf` the scaling factor, `lf`/`hf` the low/high
frequency factors, and `twoPi` the float value of `2 * math.pi`. -/
def llama3One (twoPi L sf lf hf f : ℚ) : PyResult ℚ :=
  let low_freq_wavelen := L / lf
  let high_freq_wavelen := L / hf
  let wavelen := twoPi / f
  if wavelen < high_freq_wavelen then .ok f
  else if low_freq_wavelen < wavelen then .ok (f / sf)
  else if low_freq_wavelen = high_freq_wavelen then .error .assertionError
  else
    let smooth := (L / wavelen - lf) / (hf - lf)
    .ok ((1 - smooth) * f / sf + smooth * f)

/-- Left-to-right effectful map over a list: the first failing element stops
the computation, as the Python for-loop does. -/
def mapPy (g : α → PyResult β) : List α → PyResult (List β)
  | [] => .ok []
  | x :: xs =>
    match g x with
    | .error e => .error e
    | .ok y =>
      match mapPy g xs with
      | .error e => .error e
      | .ok ys => .ok (y :: ys)

/-- `_compute_llama3_parameters` (model.py lines 260-280).  When
`old_context_len` is `None`, the very first line
`low_freq_wavelen = old_context_len / low_freq_factor` raises a TypeError
before the loop runs. -/
def _compute_llama3_parameters (twoPi : ℚ) (oldLen : Option ℚ) (sf lf hf : ℚ)
    (inv_freq : List ℚ) : PyResult (List ℚ) :=
  match oldLen with
  | none => .error .typeError
  | some L => mapPy (llama3One twoPi L sf lf hf) inv_freq

/-- The frequency-scaling stage of `precompute_freqs_cis`
(model.py lines 292-297): dispatch on presence of the long-context factors;
uniform division by the scaling factor otherwise.  The base inverse-frequency
list (a float power computation) is an input; the subsequent outer product
with positions and cos/sin evaluation are position-wise transcendental maps
that none of the claims depend on. -/
def precompute_scale (twoPi : ℚ) (baseFreqs : List ℚ) (sf : ℚ)
    (lf hf oldLen : Option ℚ) : PyResult (List ℚ) :=
  match lf, hf with
  | some l, some h => _compute_llama3_parameters twoPi oldLen sf l h baseFreqs
  | _, _ => .ok (baseFreqs.map (· / sf))

/-- The frequency-table branch of `Transformer.setup_caches`
(model.py lines 108-113): the long-context path is taken exactly when both
`high_freq_factor` and `low_freq_factor` are set; otherwise
`precompute_freqs_cis` is called without them. -/
def setupFreqsTable (twoPi : ℚ) (baseFreqs : List ℚ) (cfg : ModelArgs) :
    PyResult (List ℚ) :=
  if cfg.high_freq_factor.isSome && cfg.low_freq_factor.isSome then
    precompute_scale twoPi baseFreqs cfg.scaling_factor cfg.low_freq_factor
      cfg.high_freq_factor cfg.original_max_position_embeddings
  else
    precompute_scale twoPi baseFreqs cfg.scaling_factor none none none

/-- Python slice `l[i:]` for a possibly negative start index `i`. -/
def pySliceFrom (i : Int) (l : List α) : List α :=
  if 0 ≤ i then l.drop i.toNat else l.drop (l.length - i.natAbs)

/-- `KVCache.prefill` of the draft model (model_selfspec.py lines 106-118),
acting on one buffer (the same code runs on the key and the value buffer).
`budget` is `self.streaming_budget`, `c` is `cache_len[0].item()`, `n` is
`k_val.shape[1]` (the length of the incoming key span, which also bounds the
value slice), `xs` the incoming entries and `buf` one batch row of the cache.
Returns the updated buffer and the tensor handed to the attention kernel. -/
def streamWrite (budget c n : Nat) (xs buf : List α) : List α × List α :=
  if c + n ≤ budget then
    let b2 := buf.take c ++ xs ++ buf.drop (c + n)
    (b2, b2.take (c + n))
  else
    let slide := (buf.take budget).drop 16
    let region := pySliceFrom (16 - (budget : Int)) (slide ++ xs)
    let b2 := buf.take 16 ++ region ++ buf.drop (16 + region.length)
    (b2, b2.take budget)

/-- One batch row of the draft streaming cache: the key buffer, the value
buffer, and the streaming budget fixed at construction
(model_selfspec.py lines 71-81). -/
structure SCache (α : Type) where
  budget : Nat
  kc : List α
  vc : List α

/-- `KVCache.prefill` (model_selfspec.py lines 106-118) on one batch row:
both buffers are updated with the cursor and span length taken from the key
tensor; returns the new state and the returned key/value slices. -/
def SCache.prefill (st : SCache α) (c : Nat) (xs ys : List α) :
    SCache α × List α × List α :=
  let kp := streamWrite st.budget c xs.length xs st.kc
  let vp := streamWrite st.budget c xs.length ys st.vc
  (⟨st.budget, kp.1, vp.1⟩, kp.2, vp.2)

/-- Well-formedness of a streaming cache row as allocated by `KVCache`:
the budget strictly exceeds the 16-slot attention sink and the buffer
(of size `streaming_budget + buffer`) holds at least `budget` slots. -/
def SCache.Wf (st : SCache α) : Prop :=
  16 < st.budget ∧ st.budget ≤ st.kc.length ∧ st.kc.length = st.vc.length

/-- Run a sequence of explicit-cursor prefill calls against a cache row. -/
def scAppendMany (st : SCache α) : List (Nat × List α × List α) → SCache α
  | [] => st
  | (c, xs, ys) :: rest => scAppendMany (st.prefill c xs ys).1 rest

/-- Run a sequence of prefill calls whose cursor is the running total of
appended lengths (the chunked-prefill protocol), collecting the slices
returned to the attention kernel at each call. -/
def runSeq (st : SCache α) (c : Nat) :
    List (List α × List α) → SCache α × List (List α × List α)
  | [] => (st, [])
  | (xs, ys) :: rest =>
    let step := st.prefill c xs ys
    let tail := runSeq step.1 (c + xs.length) rest
    (tail.1, (step.2.1, step.2.2) :: tail.2)

/-- The batch dimension of `KVCache.prefill`: the cursor is
`cache_len[0].item()` (model_selfspec.py line 109) and the slice assignment
`k_out[:, c : c+n] = k_val` applies that one offset to every batch row. -/
def batchStreamWrite (budget : Nat) (cacheLens : List Nat)
    (rows bufs : List (List α)) : List (List α × List α) :=
  List.zipWith (fun buf xs => streamWrite budget (cacheLens.headD 0) xs.length xs buf)
    bufs rows

/-- Rotate one adjacent coordinate pair by a stored (cos, sin) pair, as
`apply_rotary_emb` does (model_selfspec.py lines 475-487). -/
def rotatePair (cs x : ℚ × ℚ) : ℚ × ℚ :=
  (x.1 * cs.1 - x.2 * cs.2, x.2 * cs.1 + x.1 * cs.2)

/-- Rotate a head vector, given per-pair (cos, sin) values for one position. -/
def rotVec (f x : List (ℚ × ℚ)) : List (ℚ × ℚ) :=
  List.zipWith rotatePair f x

/-- Output of one `Attention.draft_prefill` call, restricted to its cache
effect and the tensors it produces. -/
structure DPOut where
  kCache : List (List (ℚ × ℚ))
  vCache : List (List (ℚ × ℚ))
  qRot : List (List (ℚ × ℚ))
  kRot : List (List (ℚ × ℚ))
  vRet : List (List (ℚ × ℚ))

/-- The cache/rotation path of `Attention.draft_prefill`
(model_selfspec.py lines 351-377) on one batch row, one kv head:
append the new keys/values through `KVCache.prefill`, rotate the queries
with the caller-selected `freqs_cis[input_pos]` rows (`inputFreqs`), rotate
the returned keys with `streaming_freqs[:, :k.shape[1]]` where
`streaming_freqs = freqs_cis[arange(streaming_budget)]`
(model_selfspec.py line 160), and when `is_last` is set write the rotated
keys back over `draft_k_cache[:, :k.shape[1]]`. -/
def draft_prefill_attn (budget : Nat) (globalFreqs : Nat → List (ℚ × ℚ))
    (inputFreqs : List (List (ℚ × ℚ))) (c : Nat)
    (qIn kIn vIn : List (List (ℚ × ℚ)))
    (kBuf vBuf : List (List (ℚ × ℚ))) (is_last : Bool) : DPOut :=
  let kp := streamWrite budget c kIn.length kIn kBuf
  let vp := streamWrite budget c kIn.length vIn vBuf
  let streaming_freqs := (List.range budget).map globalFreqs
  let qR := List.zipWith rotVec inputFreqs qIn
  let kR := List.zipWith rotVec (streaming_freqs.take kp.2.length) kp.2
  let kc2 := if is_last then kR ++ kp.1.drop kR.length else kp.1
  ⟨kc2, vp.1, qR, kR, vp.2⟩

/-- One per-layer cache of the draft model, as allocated by
`KVCache.__init__` (model_selfspec.py lines 71-81): zero-initialised full
buffers of shape (max_batch_size, max_seq_length, n_heads, head_dim) and
draft buffers of shape (max_batch_size, streaming_budget + buffer, n_heads,
head_dim), flattened. -/
structure DraftKVCache where
  maxBatch : Nat
  seqLen : Nat
  nHeads : Nat
  headDim : Nat
  streamingBudget : Nat
  buffer : Nat
  kData : List ℚ
  vData : List ℚ
  draftK : List ℚ
  draftV : List ℚ
deriving DecidableEq

/-- Fresh zero-filled draft cache, per `KVCache.__init__`. -/
def mkDraftKVCache (mb ms heads hd budget buffer : Nat) : DraftKVCache :=
  ⟨mb, ms, heads, hd, budget, buffer,
   List.replicate (mb * ms * heads * hd) 0,
   List.replicate (mb * ms * heads * hd) 0,
   List.replicate (mb * (budget + buffer) * heads * hd) 0,
   List.replicate (mb * (budget + buffer) * heads * hd) 0⟩

/-- The rotary frequency table of a transformer, identified by the sequence
length it is sized to and the (fallibly computed) scaled frequency list. -/
structure FreqsParams where
  seqLen : Nat
  scaled : PyResult (List ℚ)
deriving DecidableEq

/-- The cache-related state of the draft `Transformer`
(model_selfspec.py lines 120-160): capacity markers (initialised to -1),
per-layer caches, the frequency table and the positions selected for
`streaming_freqs` (`arange(streaming_budget)`, line 160). -/
structure DraftTransformerState where
  maxSeqLength : Int
  maxBatchSize : Int
  layerCaches : List DraftKVCache
  freqTable : Option FreqsParams
  streamingSel : List Nat
deriving DecidableEq

/-- `Transformer.setup_caches` of the draft model
(model_selfspec.py lines 135-160): early return when the existing capacity
covers the request, otherwise reallocate every per-layer cache, rebuild the
frequency table sized to `block_size` and reselect `streaming_freqs`. -/
def draft_setup_caches (cfg : ModelArgs) (twoPi : ℚ) (baseFreqs : List ℚ)
    (st : DraftTransformerState) (mb ms budget buffer : Nat) :
    DraftTransformerState :=
  if (ms : Int) ≤ st.maxSeqLength ∧ (mb : Int) ≤ st.maxBatchSize then st
  else
    { maxSeqLength := (ms : Int), maxBatchSize := (mb : Int),
      layerCaches := List.replicate cfg.n_layer
        (mkDraftKVCache mb ms cfg.n_local_heads.toNat (cfg.dim / cfg.n_head)
          budget buffer),
      freqTable := some ⟨cfg.block_size, setupFreqsTable twoPi baseFreqs cfg⟩,
      streamingSel := List.range budget }

/-- One per-layer paged cache of the target model, as allocated by
`KVCache.__init__` (model.py lines 70-74): a zero buffer of shape
(max_num_pages, 2, page_size, n_heads, head_dim), flattened. -/
structure TargetKVCache where
  numPages : Nat
  pageSize : Nat
  nHeads : Nat
  headDim : Nat
  kvData : List ℚ
deriving DecidableEq

/-- Fresh zero-filled target cache, per `KVCache.__init__` of model.py. -/
def mkTargetKVCache (pages psize heads hd : Nat) : TargetKVCache :=
  ⟨pages, psize, heads, hd, List.replicate (pages * 2 * psize * heads * hd) 0⟩

/-- The cache-related state of the target `Transformer` (model.py lines 88-113). -/
structure TargetTransformerState where
  layerCaches : List TargetKVCache
  freqTable : Option FreqsParams
deriving DecidableEq

/-- `Transformer.setup_caches` of the target model (model.py lines 98-113):
it has no capacity re-check and unconditionally reallocates all per-layer
caches as fresh zero buffers and rebuilds the frequency table. -/
def target_setup_caches (cfg : ModelArgs) (twoPi : ℚ) (baseFreqs : List ℚ)
    (_st : TargetTransformerState) (num_pages page_size : Nat) :
    TargetTransformerState :=
  { layerCaches := List.replicate cfg.n_layer
      (mkTargetKVCache num_pages page_size cfg.n_local_heads.toNat
        (cfg.dim / cfg.n_head)),
    freqTable := some ⟨cfg.block_size, setupFreqsTable twoPi baseFreqs cfg⟩ }

/-! Helper lemmas about the streaming write. -/

theorem pySliceFrom_of_neg {i : Int} (hi : i < 0) (l : List α) :
    pySliceFrom i l = l.drop (l.length - i.natAbs) := by
  unfold pySliceFrom
  rw [if_neg (by omega)]

/-- Shape of `streamWrite` in the in-budget branch. -/
theorem streamWrite_under {budget c n : Nat} {xs buf : List α} (hn : xs.length = n)
    (hc : c + n ≤ budget) (hlen : budget ≤ buf.length) :
    streamWrite budget c n xs buf =
      (buf.take c ++ xs ++ buf.drop (c + n), buf.take c ++ xs) := by
  have hcl : c ≤ buf.length := by omega
  have h1 : (buf.take c ++ xs).length = c + n := by
    simp [List.length_take]
    omega
  simp only [streamWrite]
  rw [if_pos hc]
  rw [List.take_left' h1]

/-- Shape of `streamWrite` in the overflow branch: the sink stays, the sliding
region becomes the tail of (old slide ++ new), the rest of the buffer stays. -/
theorem streamWrite_over {budget c n : Nat} {xs buf : List α} (hn : xs.length = n)
    (hb : 16 < budget) (hlen : budget ≤ buf.length) (ho : ¬ c + n ≤ budget) :
    streamWrite budget c n xs buf =
      (buf.take 16 ++ ((buf.take budget).drop 16 ++ xs).drop n ++ buf.drop budget,
       buf.take 16 ++ ((buf.take budget).drop 16 ++ xs).drop n) := by
  have hslide : ((buf.take budget).drop 16).length = budget - 16 := by
    simp [List.length_take]
    omega
  have htot : ((buf.take budget).drop 16 ++ xs).length = budget - 16 + n := by
    simp [hslide, hn]
  have hreg : (((buf.take budget).drop 16 ++ xs).drop n).length = budget - 16 := by
    simp [htot]
  have hregion : pySliceFrom (16 - (budget : Int)) ((buf.take budget).drop 16 ++ xs) =
      ((buf.take budget).drop 16 ++ xs).drop n := by
    rw [pySliceFrom_of_neg (by omega)]
    congr 1
    rw [htot]
    omega
  have h16 : (buf.take 16).length = 16 := by
    simp [List.length_take]
    omega
  have hdrop : 16 + (((buf.take budget).drop 16 ++ xs).drop n).length = budget := by
    rw [hreg]
    omega
  have hl : (buf.take 16 ++ ((buf.take budget).drop 16 ++ xs).drop n).length = budget := by
    rw [List.length_append, h16, hreg]
    omega
  simp only [streamWrite]
  rw [if_neg ho, hregion, hdrop, List.take_left' hl]

/-- The buffer handed back to the kernel never exceeds the budget. -/
theorem streamWrite_ret_le (budget c n : Nat) (xs buf : List α) :
    (streamWrite budget c n xs buf).2.length ≤ budget := by
  unfold streamWrite
  split
  · simp [List.length_take]
    omega
  · simp [List.length_take]

/-- `streamWrite` preserves the buffer length on well-sized buffers. -/
theorem streamWrite_length {budget c n : Nat} {xs buf : List α} (hn : xs.length = n)
    (hb : 16 < budget) (hlen : budget ≤ buf.length) :
    ((streamWrite budget c n xs buf).1).length = buf.length := by
  by_cases hc : c + n ≤ budget
  · rw [streamWrite_under hn hc hlen]
    simp [List.length_take]
    omega
  · rw [streamWrite_over hn hb hlen hc]
    have hslide : ((buf.take budget).drop 16).length = budget - 16 := by
      simp [List.length_take]
      omega
    simp [List.length_take, hslide, hn]
    omega

/-- `streamWrite` never touches the 16-slot attention sink when the cursor is
at or beyond it. -/
theorem streamWrite_take16 {budget c n : Nat} {xs buf : List α} (hn : xs.length = n)
    (hb : 16 < budget) (hlen : budget ≤ buf.length) (hc16 : 16 ≤ c) :
    ((streamWrite budget c n xs buf).1).take 16 = buf.take 16 := by
  by_cases hc : c + n ≤ budget
  · rw [streamWrite_under hn hc hlen]
    dsimp only
    rw [List.take_append_of_le_length (by simp [List.length_take]; omega)]
    rw [List.take_append_of_le_length (by simp [List.length_take]; omega)]
    rw [List.take_take]
    congr 1
    omega
  · rw [streamWrite_over hn hb hlen hc]
    dsimp only
    rw [List.take_append_of_le_length (by simp [List.length_take]; omega)]
    rw [List.take_append_of_le_length (by simp [List.length_take]; omega)]
    rw [List.take_take]
    congr 1

/-- All facts about the in-budget branch of `streamWrite` used below. -/
theorem streamWrite_under_props {budget c n : Nat} {xs buf : List α} (hn : xs.length = n)
    (hc : c + n ≤ budget) (hlen : budget ≤ buf.length) :
    (streamWrite budget c n xs buf).1 = buf.take c ++ xs ++ buf.drop (c + n) ∧
    (streamWrite budget c n xs buf).2 = buf.take c ++ xs ∧
    (streamWrite budget c n xs buf).2 = ((streamWrite budget c n xs buf).1).take (c + n) := by
  have h1 : (buf.take c ++ xs).length = c + n := by
    simp [List.length_take]
    omega
  rw [streamWrite_under hn hc hlen]
  exact ⟨rfl, rfl, (List.take_left' h1).symm⟩

/-- All facts about the overflow branch of `streamWrite` used below. -/
theorem streamWrite_over_props {budget c n : Nat} {xs buf : List α} (hn : xs.length = n)
    (hb : 16 < budget) (hlen : budget ≤ buf.length) (ho : ¬ c + n ≤ budget) :
    (streamWrite budget c n xs buf).1.take 16 = buf.take 16 ∧
    (streamWrite budget c n xs buf).1.drop budget = buf.drop budget ∧
    ((streamWrite budget c n xs buf).1.take budget).drop 16 =
      ((buf.take budget).drop 16 ++ xs).drop n ∧
    (n ≤ budget - 16 → ((streamWrite budget c n xs buf).1.take budget).drop 16 =
      ((buf.take budget).drop 16).drop n ++ xs) ∧
    (streamWrite budget c n xs buf).2 = ((streamWrite budget c n xs buf).1).take budget := by
  have hslide : ((buf.take budget).drop 16).length = budget - 16 := by
    simp [List.length_take]
    omega
  have hreg : ((((buf.take budget).drop 16) ++ xs).drop n).length = budget - 16 := by
    simp [hslide, hn]
  have h16 : (buf.take 16).length = 16 := by
    simp [List.length_take]
    omega
  have hl : (buf.take 16 ++ ((buf.take budget).drop 16 ++ xs).drop n).length = budget := by
    rw [List.length_append, h16, hreg]
    omega
  rw [streamWrite_over hn hb hlen ho]
  dsimp only
  have htake : (buf.take 16 ++ ((buf.take budget).drop 16 ++ xs).drop n ++
      buf.drop budget).take budget =
      buf.take 16 ++ ((buf.take budget).drop 16 ++ xs).drop n :=
    List.take_left' hl
  refine ⟨?_, ?_, ?_, ?_, ?_⟩
  · rw [List.take_append_of_le_length (by rw [hl]; omega),
        List.take_append_of_le_length (by rw [h16]),
        List.take_take]
    congr 1
  · exact List.drop_left' hl
  · rw [htake, List.drop_left' h16]
  · intro hfit
    rw [htake, List.drop_left' h16]
    exact List.drop_append_of_le_length (by omega)
  · rw [htake]

/-- `SCache.prefill` preserves well-formedness when keys and values have the
same span length, as they do in the model. -/
theorem SCache.prefill_wf {st : SCache α} (hwf : st.Wf) {c : Nat} {xs ys : List α}
    (hlen : ys.length = xs.length) : ((st.prefill c xs ys).1).Wf := by
  obtain ⟨hb, hk, hkv⟩ := hwf
  refine ⟨hb, ?_, ?_⟩
  · show ((streamWrite st.budget c xs.length xs st.kc).1).length ≥ st.budget
    rw [streamWrite_length rfl hb hk]
    exact hk
  · show ((streamWrite st.budget c xs.length xs st.kc).1).length =
      ((streamWrite st.budget c xs.length ys st.vc).1).length
    rw [streamWrite_length rfl hb hk, streamWrite_length hlen hb (hkv ▸ hk), hkv]

/-- A prefill whose cursor sits at or beyond the 16-slot sink leaves the sink
of both buffers untouched. -/
theorem SCache.prefill_take16 {st : SCache α} (hwf : st.Wf) {c : Nat}
    (hc : 16 ≤ c) (xs ys : List α) (hlen : ys.length = xs.length) :
    ((st.prefill c xs ys).1).kc.take 16 = st.kc.take 16 ∧
    ((st.prefill c xs ys).1).vc.take 16 = st.vc.take 16 := by
  obtain ⟨hb, hk, hkv⟩ := hwf
  exact ⟨streamWrite_take16 rfl hb hk hc, streamWrite_take16 hlen hb (hkv ▸ hk) hc⟩

/-- Runs of appends with cursors at or beyond the sink keep the sink of both
buffers intact and preserve well-formedness. -/
theorem scAppendMany_take16 :
    ∀ (l : List (Nat × List α × List α)) (st : SCache α), st.Wf →
    (∀ a ∈ l, 16 ≤ a.1 ∧ a.2.2.length = a.2.1.length) →
    (scAppendMany st l).kc.take 16 = st.kc.take 16 ∧
    (scAppendMany st l).vc.take 16 = st.vc.take 16 ∧ (scAppendMany st l).Wf
  | [], st, hwf, _ => ⟨rfl, rfl, hwf⟩
  | (c, xs, ys) :: rest, st, hwf, hall => by
    have hstep := hall (c, xs, ys) (List.mem_cons_self _ _)
    have h1 := SCache.prefill_take16 hwf hstep.1 xs ys hstep.2
    have hwf1 : ((st.prefill c xs ys).1).Wf := SCache.prefill_wf hwf hstep.2
    have ih := scAppendMany_take16 rest (st.prefill c xs ys).1 hwf1
      (fun a ha => hall a (List.mem_cons_of_mem _ ha))
    refine ⟨?_, ?_, ih.2.2⟩
    · rw [show scAppendMany st ((c, xs, ys) :: rest) =
        scAppendMany (st.prefill c xs ys).1 rest from rfl, ih.1, h1.1]
    · rw [show scAppendMany st ((c, xs, ys) :: rest) =
        scAppendMany (st.prefill c xs ys).1 rest from rfl, ih.2.1, h1.2]

/-- C1: sink invariance of the streaming window cache.  After a first prefill
at cursor 0 that fills at least the 16 sink slots (within the budget), any
sequence of subsequent appends — whose cursors, having advanced monotonically
past the first fill, are all at least 16 — leaves the key and value entries
at positions [0, 16) equal to their value immediately after the first
prefill, namely the first 16 appended keys/values. -/
theorem sink_invariance {α : Type} (st : SCache α) (hwf : st.Wf)
    (xs ys : List α) (hlen : ys.length = xs.length) (h16 : 16 ≤ xs.length)
    (hbud : xs.length ≤ st.budget)
    (appends : List (Nat × List α × List α))
    (hmono : ∀ a ∈ appends, 16 ≤ a.1 ∧ a.2.2.length = a.2.1.length) :
    (scAppendMany (st.prefill 0 xs ys).1 appends).kc.take 16 = xs.take 16 ∧
    (scAppendMany (st.prefill 0 xs ys).1 appends).vc.take 16 = ys.take 16 := by
  obtain ⟨hb, hk, hkv⟩ := hwf
  have hwf1 : ((st.prefill 0 xs ys).1).Wf := SCache.prefill_wf ⟨hb, hk, hkv⟩ hlen
  have hrun := scAppendMany_take16 appends (st.prefill 0 xs ys).1 hwf1 hmono
  have hkc1 : ((st.prefill 0 xs ys).1).kc.take 16 = xs.take 16 := by
    show ((streamWrite st.budget 0 xs.length xs st.kc).1).take 16 = xs.take 16
    rw [(streamWrite_under_props rfl (by omega) hk).1]
    simp only [List.take_zero, List.nil_append]
    exact List.take_append_of_le_length (by omega)
  have hvc1 : ((st.prefill 0 xs ys).1).vc.take 16 = ys.take 16 := by
    show ((streamWrite st.budget 0 xs.length ys st.vc).1).take 16 = ys.take 16
    rw [(streamWrite_under_props hlen (by omega) (hkv ▸ hk)).1]
    simp only [List.take_zero, List.nil_append]
    exact List.take_append_of_le_length (by omega)
  exact ⟨hrun.1.trans hkc1, hrun.2.1.trans hvc1⟩

/-- C1 witness: a concrete first prefill of 16 entries into a budget-17 cache
followed by one further append at cursor 16. -/
theorem sink_invariance_witness :
    (SCache.Wf ⟨17, List.replicate 17 (0 : Nat), List.replicate 17 0⟩ ∧
     (16 ≤ 17 ∧ True)) ∧
    ((scAppendMany ((SCache.prefill ⟨17, List.replicate 17 (0 : Nat),
        List.replicate 17 0⟩ 0 (List.range 16) (List.range 16)).1)
        [(16, [99], [98])]).kc.take 16 = (List.range 16).take 16 ∧
     (scAppendMany ((SCache.prefill ⟨17, List.replicate 17 (0 : Nat),
        List.replicate 17 0⟩ 0 (List.range 16) (List.range 16)).1)
        [(16, [99], [98])]).vc.take 16 = (List.range 16).take 16) :=
  ⟨⟨⟨by decide, by decide, by decide⟩, by decide, trivial⟩,
   sink_invariance ⟨17, List.replicate 17 0, List.replicate 17 0⟩
     ⟨by decide, by decide, by decide⟩ (List.range 16) (List.range 16)
     (by decide) (by decide) (by decide) [(16, [99], [98])] (by decide)⟩

/-- C2: the streaming window append follows the two-case algorithm exactly.
Below the budget it writes the new keys/values at positions
[cache_len, cache_len + new_len) and returns the prefix up to
cache_len + new_len; on overflow it leaves the 16-slot sink and everything
beyond the budget untouched, replaces the sliding region [16, budget) by the
tail of (old sliding region ++ new entries) — so the region ends with the
new entries whenever they fit in the window — and returns the full
budget-length buffer. -/
theorem streaming_append_two_cases {α : Type} (st : SCache α) (hwf : st.Wf)
    (c : Nat) (xs ys : List α) (hlen : ys.length = xs.length) :
    (c + xs.length ≤ st.budget →
       ((st.prefill c xs ys).1).kc = st.kc.take c ++ xs ++ st.kc.drop (c + xs.length) ∧
       ((st.prefill c xs ys).1).vc = st.vc.take c ++ ys ++ st.vc.drop (c + xs.length) ∧
       (st.prefill c xs ys).2.1 = st.kc.take c ++ xs ∧
       (st.prefill c xs ys).2.2 = st.vc.take c ++ ys ∧
       (st.prefill c xs ys).2.1 = ((st.prefill c xs ys).1).kc.take (c + xs.length) ∧
       (st.prefill c xs ys).2.2 = ((st.prefill c xs ys).1).vc.take (c + xs.length)) ∧
    (¬ c + xs.length ≤ st.budget →
       ((st.prefill c xs ys).1).kc.take 16 = st.kc.take 16 ∧
       ((st.prefill c xs ys).1).vc.take 16 = st.vc.take 16 ∧
       ((st.prefill c xs ys).1).kc.drop st.budget = st.kc.drop st.budget ∧
       ((st.prefill c xs ys).1).vc.drop st.budget = st.vc.drop st.budget ∧
       (((st.prefill c xs ys).1).kc.take st.budget).drop 16 =
         ((st.kc.take st.budget).drop 16 ++ xs).drop xs.length ∧
       (((st.prefill c xs ys).1).vc.take st.budget).drop 16 =
         ((st.vc.take st.budget).drop 16 ++ ys).drop xs.length ∧
       (xs.length ≤ st.budget - 16 →
         (((st.prefill c xs ys).1).kc.take st.budget).drop 16 =
           ((st.kc.take st.budget).drop 16).drop xs.length ++ xs ∧
         (((st.prefill c xs ys).1).vc.take st.budget).drop 16 =
           ((st.vc.take st.budget).drop 16).drop xs.length ++ ys) ∧
       (st.prefill c xs ys).2.1 = ((st.prefill c xs ys).1).kc.take st.budget ∧
       (st.prefill c xs ys).2.2 = ((st.prefill c xs ys).1).vc.take st.budget) := by
  obtain ⟨hb, hk, hkv⟩ := hwf
  constructor
  · intro hc
    have pk := @streamWrite_under_props α st.budget c xs.length xs st.kc rfl hc hk
    have pv := @streamWrite_under_props α st.budget c xs.length ys st.vc hlen hc
      (hkv ▸ hk)
    exact ⟨pk.1, pv.1, pk.2.1, pv.2.1, pk.2.2, pv.2.2⟩
  · intro hc
    have pk := @streamWrite_over_props α st.budget c xs.length xs st.kc rfl hb hk hc
    have pv := @streamWrite_over_props α st.budget c xs.length ys st.vc hlen hb
      (hkv ▸ hk) hc
    exact ⟨pk.1, pv.1, pk.2.1, pv.2.1, pk.2.2.1, pv.2.2.1,
           fun hfit => ⟨pk.2.2.2.1 hfit, pv.2.2.2.1 hfit⟩,
           pk.2.2.2.2, pv.2.2.2.2⟩

/-- C2 witness: the overflow case on a budget-17 cache holding 0..16 with two
new entries appended at cursor 17. -/
theorem streaming_append_two_cases_witness :
    (SCache.Wf ⟨17, List.range 17, List.range 17⟩ ∧ ¬ 17 + 2 ≤ 17) ∧
    (((SCache.prefill ⟨17, List.range 17, List.range 17⟩ 17 [101, 102]
        [201, 202]).1).kc.take 16 = (List.range 17).take 16 ∧
     ((SCache.prefill ⟨17, List.range 17, List.range 17⟩ 17 [101, 102]
        [201, 202]).1).vc.take 16 = (List.range 17).take 16) :=
  ⟨⟨⟨by decide, by decide, by decide⟩, by decide⟩,
   by
    have h := (streaming_append_two_cases ⟨17, List.range 17, List.range 17⟩
      ⟨by decide, by decide, by decide⟩ 17 [101, 102] [201, 202] (by decide)).2
      (by decide)
    exact ⟨h.1, h.2.1⟩⟩

/-- Invariant of the chunked-prefill run: as long as the running total stays
within the budget, the cache accumulates the concatenation of the appended
spans after the initial prefix, and every call returns exactly the prefix
written so far. -/
theorem runSeq_spec {α : Type} (l : List (List α × List α)) :
    ∀ (st : SCache α) (c : Nat), st.Wf →
    (∀ p ∈ l, p.2.length = p.1.length) →
    c + (l.map fun p => p.1.length).sum ≤ st.budget →
    ((runSeq st c l).1.kc.take (c + (l.map fun p => p.1.length).sum) =
       st.kc.take c ++ (l.map (·.1)).flatten ∧
     (runSeq st c l).1.vc.take (c + (l.map fun p => p.1.length).sum) =
       st.vc.take c ++ (l.map (·.2)).flatten ∧
     (runSeq st c l).2.length = l.length ∧
     ∀ i (hi : i < (runSeq st c l).2.length),
       ((runSeq st c l).2.get ⟨i, hi⟩).1 =
         st.kc.take c ++ ((l.map (·.1)).take (i + 1)).flatten ∧
       ((runSeq st c l).2.get ⟨i, hi⟩).2 =
         st.vc.take c ++ ((l.map (·.2)).take (i + 1)).flatten) := by
  induction l with
  | nil =>
    intro st c hwf hp htot
    refine ⟨by simp [runSeq], by simp [runSeq], by simp [runSeq], ?_⟩
    intro i hi
    simp [runSeq] at hi
  | cons hd tl ih =>
    intro st c hwf hp htot
    obtain ⟨xs, ys⟩ := hd
    obtain ⟨hb, hk, hkv⟩ := hwf
    have hys : ys.length = xs.length := hp (xs, ys) (List.mem_cons_self _ _)
    have hsum : ((((xs, ys) :: tl).map fun p => p.1.length).sum) =
        xs.length + ((tl.map fun p => p.1.length).sum) := by simp
    have hc : c + xs.length ≤ st.budget := by
      rw [hsum] at htot
      omega
    have pk := @streamWrite_under_props α st.budget c xs.length xs st.kc rfl hc hk
    have pv := @streamWrite_under_props α st.budget c xs.length ys st.vc hys hc
      (hkv ▸ hk)
    have hwf1 : ((st.prefill c xs ys).1).Wf := SCache.prefill_wf ⟨hb, hk, hkv⟩ hys
    have hbud1 : ((st.prefill c xs ys).1).budget = st.budget := rfl
    have htot1 : (c + xs.length) + (tl.map fun p => p.1.length).sum ≤
        ((st.prefill c xs ys).1).budget := by
      rw [hbud1]
      rw [hsum] at htot
      omega
    have IH := ih (st.prefill c xs ys).1 (c + xs.length) hwf1
      (fun p hp' => hp p (List.mem_cons_of_mem _ hp')) htot1
    have hckc : c ≤ st.kc.length := by omega
    have hcvc : c ≤ st.vc.length := by omega
    have hkstep : ((st.prefill c xs ys).1).kc.take (c + xs.length) =
        st.kc.take c ++ xs := by
      show ((streamWrite st.budget c xs.length xs st.kc).1).take (c + xs.length) =
        st.kc.take c ++ xs
      rw [pk.1]
      exact List.take_left' (by simp [List.length_take]; omega)
    have hvstep : ((st.prefill c xs ys).1).vc.take (c + xs.length) =
        st.vc.take c ++ ys := by
      show ((streamWrite st.budget c xs.length ys st.vc).1).take (c + xs.length) =
        st.vc.take c ++ ys
      rw [pv.1]
      exact List.take_left' (by simp [List.length_take]; omega)
    have hrun : runSeq st c ((xs, ys) :: tl) =
        ((runSeq (st.prefill c xs ys).1 (c + xs.length) tl).1,
         ((st.prefill c xs ys).2.1, (st.prefill c xs ys).2.2) ::
           (runSeq (st.prefill c xs ys).1 (c + xs.length) tl).2) := rfl
    refine ⟨?_, ?_, ?_, ?_⟩
    · rw [hrun, hsum]
      rw [show c + (xs.length + (tl.map fun p => p.1.length).sum) =
        (c + xs.length) + (tl.map fun p => p.1.length).sum by omega]
      rw [IH.1, hkstep]
      simp [List.append_assoc]
    · rw [hrun, hsum]
      rw [show c + (xs.length + (tl.map fun p => p.1.length).sum) =
        (c + xs.length) + (tl.map fun p => p.1.length).sum by omega]
      rw [IH.2.1, hvstep]
      simp [List.append_assoc]
    · rw [hrun]
      simp [IH.2.2.1]
    · intro i hi
      match i with
      | 0 =>
        refine ⟨?_, ?_⟩
        · show (streamWrite st.budget c xs.length xs st.kc).2 = _
          rw [pk.2.1]
          simp
        · show (streamWrite st.budget c xs.length ys st.vc).2 = _
          rw [pv.2.1]
          simp
      | Nat.succ j =>
        have hj : j < (runSeq (st.prefill c xs ys).1 (c + xs.length) tl).2.length := by
          have h2 := hi
          rw [hrun] at h2
          simpa using h2
        have hIH := IH.2.2.2 j hj
        refine ⟨?_, ?_⟩
        · show ((runSeq (st.prefill c xs ys).1 (c + xs.length) tl).2.get ⟨j, hj⟩).1 = _
          rw [hIH.1, hkstep]
          simp [List.append_assoc]
        · show ((runSeq (st.prefill c xs ys).1 (c + xs.length) tl).2.get ⟨j, hj⟩).2 = _
          rw [hIH.2, hvstep]
          simp [List.append_assoc]

/-- C3: lossless behaviour below the budget.  For a run of appends starting
at cursor 0 whose cursors are the running totals and whose overall total
stays within the budget, the cache slice [0, total) afterwards is the
concatenation of all appended keys (respectively values), and every call
returned exactly the prefix accumulated up to and including it. -/
theorem lossless_below_budget {α : Type} (st : SCache α) (hwf : st.Wf)
    (l : List (List α × List α)) (hp : ∀ p ∈ l, p.2.length = p.1.length)
    (htot : (l.map fun p => p.1.length).sum ≤ st.budget) :
    (runSeq st 0 l).1.kc.take ((l.map fun p => p.1.length).sum) =
      (l.map (·.1)).flatten ∧
    (runSeq st 0 l).1.vc.take ((l.map fun p => p.1.length).sum) =
      (l.map (·.2)).flatten ∧
    (runSeq st 0 l).2.length = l.length ∧
    ∀ i (hi : i < (runSeq st 0 l).2.length),
      ((runSeq st 0 l).2.get ⟨i, hi⟩).1 = ((l.map (·.1)).take (i + 1)).flatten ∧
      ((runSeq st 0 l).2.get ⟨i, hi⟩).2 = ((l.map (·.2)).take (i + 1)).flatten := by
  have h := runSeq_spec l st 0 hwf hp (by omega)
  simpa using h

/-- C3 witness: two appends of lengths 2 and 1 into a fresh budget-17 cache. -/
theorem lossless_below_budget_witness :
    (SCache.Wf ⟨17, List.replicate 17 (0 : Nat), List.replicate 17 0⟩ ∧
     ((([([1, 2], [5, 6]), ([3], [7])] : List (List Nat × List Nat)).map
        fun p => p.1.length).sum ≤ 17)) ∧
    ((runSeq ⟨17, List.replicate 17 (0 : Nat), List.replicate 17 0⟩ 0
        [([1, 2], [5, 6]), ([3], [7])]).1.kc.take 3 = [1, 2, 3] ∧
     (runSeq ⟨17, List.replicate 17 (0 : Nat), List.replicate 17 0⟩ 0
        [([1, 2], [5, 6]), ([3], [7])]).1.vc.take 3 = [5, 6, 7]) :=
  ⟨⟨⟨by decide, by decide, by decide⟩, by decide⟩,
   by
    have h := lossless_below_budget ⟨17, List.replicate 17 (0 : Nat),
      List.replicate 17 0⟩ ⟨by decide, by decide, by decide⟩
      [([1, 2], [5, 6]), ([3], [7])] (by decide) (by decide)
    exact ⟨h.1, h.2.1⟩⟩

/-- C4 counterexample: the claim predicts that with cursor vector [0, 3] the
second row's append lands at its own cursor 3; the code takes the cursor
`cache_seqlens[0] = 0` for the whole batch, so the second row is overwritten
at offset 0 while its slot 3 keeps its old value 4. -/
theorem batch_cursor_counterexample :
    (((batchStreamWrite 20 [0, 3] [[7], [7]]
        [List.replicate 20 (0 : ℚ), [1, 2, 3, 4] ++ List.replicate 16 0]).getD 1
        ([], [])).1.getD 0 99 = 7) ∧
    (((batchStreamWrite 20 [0, 3] [[7], [7]]
        [List.replicate 20 (0 : ℚ), [1, 2, 3, 4] ++ List.replicate 16 0]).getD 1
        ([], [])).1.getD 3 99 = 4) := by
  constructor
  · rfl
  · rfl

/-- C4 (amended): the streaming append is not per-sequence batch-indexed; it
reads only the first cursor `cache_seqlens[0]` and writes every row of the
batch at that one offset, so the remaining entries of the cursor vector have
no effect at all. -/
theorem batch_uses_first_cursor {α : Type} (budget : Nat) (c : Nat) (t : List Nat)
    (rows bufs : List (List α)) :
    batchStreamWrite budget (c :: t) rows bufs =
      batchStreamWrite budget [c] rows bufs ∧
    ∀ i (hi : i < (batchStreamWrite budget (c :: t) rows bufs).length),
      (batchStreamWrite budget (c :: t) rows bufs).get ⟨i, hi⟩ =
        streamWrite budget c (rows.getD i []).length (rows.getD i [])
          (bufs.getD i []) := by
  constructor
  · rfl
  · intro i hi
    have hlen := hi
    rw [batchStreamWrite, List.length_zipWith] at hlen
    have hib : i < bufs.length := lt_of_lt_of_le hlen (min_le_left _ _)
    have hir : i < rows.length := lt_of_lt_of_le hlen (min_le_right _ _)
    show (List.zipWith _ bufs rows).get ⟨i, hi⟩ = _
    rw [List.get_eq_getElem, List.getElem_zipWith]
    rw [List.getD_eq_getElem?_getD, List.getD_eq_getElem?_getD,
        List.getElem?_eq_getElem hir, List.getElem?_eq_getElem hib]
    rfl

/-- C4 witness for the amended claim: instantiated at the counterexample's
input, the second row is written with the first row's cursor 0. -/
theorem batch_uses_first_cursor_witness :
    (batchStreamWrite 20 [0, 3] [[7], [7]]
        [List.replicate 20 (0 : ℚ), [1, 2, 3, 4] ++ List.replicate 16 0] =
      batchStreamWrite 20 [0] [[7], [7]]
        [List.replicate 20 (0 : ℚ), [1, 2, 3, 4] ++ List.replicate 16 0]) ∧
    (batchStreamWrite 20 [0, 3] [[7], [7]]
        [List.replicate 20 (0 : ℚ), [1, 2, 3, 4] ++ List.replicate 16 0]).get
        ⟨1, by decide⟩ =
      streamWrite 20 0 1 [7] ([1, 2, 3, 4] ++ List.replicate 16 0) :=
  ⟨(batch_uses_first_cursor 20 0 [3] [[7], [7]]
      [List.replicate 20 (0 : ℚ), [1, 2, 3, 4] ++ List.replicate 16 0]).1,
   (batch_uses_first_cursor 20 0 [3] [[7], [7]]
      [List.replicate 20 (0 : ℚ), [1, 2, 3, 4] ++ List.replicate 16 0]).2 1
      (by decide)⟩

/-- C10: `head_dim` is always overwritten by `__post_init__` with
`dim // n_head`; the constructor argument for `head_dim` has no effect on the
resulting configuration. -/
theorem head_dim_overridden (a : ModelArgs) :
    (mkModelArgs a).head_dim = a.dim / a.n_head ∧
    ∀ h1 h2 : Nat,
      mkModelArgs { a with head_dim := h1 } = mkModelArgs { a with head_dim := h2 } :=
  ⟨rfl, fun _ _ => rfl⟩

/-- C9 counterexample: the target variant's `setup_caches` is not a no-op on
re-invocation within capacity.  A state whose single-layer paged cache (one
page of one slot, two heads worth of data [5,5,5,5]) was set up for exactly
the re-requested capacity is reallocated to fresh zeros, so the cache buffer
changes. -/
theorem target_setup_not_noop :
    target_setup_caches
        (mkModelArgs { block_size := 4, vocab_size := 8, n_layer := 1,
                       n_head := 1, dim := 2 }) 7 [1]
        ⟨[⟨1, 1, 1, 2, [5, 5, 5, 5]⟩], some ⟨4, .ok [1]⟩⟩ 1 1 ≠
      ⟨[⟨1, 1, 1, 2, [5, 5, 5, 5]⟩], some ⟨4, .ok [1]⟩⟩ := by
  decide

/-- C9 (amended): only the draft variant's `setup_caches` is an idempotent
no-op — it returns the state unchanged whenever the requested sequence length
and batch size do not exceed the recorded capacity; the target variant has no
such re-check and always reallocates. -/
theorem draft_setup_noop (cfg : ModelArgs) (twoPi : ℚ) (baseFreqs : List ℚ)
    (st : DraftTransformerState) (mb ms budget buffer : Nat)
    (h : (ms : Int) ≤ st.maxSeqLength ∧ (mb : Int) ≤ st.maxBatchSize) :
    draft_setup_caches cfg twoPi baseFreqs st mb ms budget buffer = st := by
  unfold draft_setup_caches
  rw [if_pos h]

/-- C9 witness: a concrete draft state with capacity (4, 2) re-requested at
(3, 1) is returned unchanged. -/
theorem draft_setup_noop_witness :
    (((3 : Nat) : Int) ≤ (4 : Int) ∧ ((1 : Nat) : Int) ≤ (2 : Int)) ∧
    draft_setup_caches (mkModelArgs {}) 7 [1] ⟨4, 2, [], none, []⟩ 1 3 32 0 =
      ⟨4, 2, [], none, []⟩ :=
  ⟨⟨by decide, by decide⟩,
   draft_setup_noop (mkModelArgs {}) 7 [1] ⟨4, 2, [], none, []⟩ 1 3 32 0
     ⟨by decide, by decide⟩⟩

/-- Case analysis of one successful loop step of `_compute_llama3_parameters`. -/
theorem llama3One_ok_cases {twoPi L sf lf hf f y : ℚ}
    (h : llama3One twoPi L sf lf hf f = .ok y) :
    (twoPi / f < L / hf → y = f) ∧
    (¬ twoPi / f < L / hf → L / lf < twoPi / f → y = f / sf) ∧
    (¬ twoPi / f < L / hf → ¬ L / lf < twoPi / f →
      y = (1 - (L / (twoPi / f) - lf) / (hf - lf)) * f / sf +
          (L / (twoPi / f) - lf) / (hf - lf) * f) := by
  simp only [llama3One] at h
  refine ⟨?_, ?_, ?_⟩
  · intro h1
    rw [if_pos h1] at h
    injection h with h'
    exact h'.symm
  · intro h1 h2
    rw [if_neg h1, if_pos h2] at h
    injection h with h'
    exact h'.symm
  · intro h1 h2
    rw [if_neg h1, if_neg h2] at h
    by_cases heq : L / lf = L / hf
    · rw [if_pos heq] at h
      cases h
    · rw [if_neg heq] at h
      injection h with h'
      exact h'.symm

/-- A successful `mapPy` run acts element-wise. -/
theorem mapPy_ok_nth (g : α → PyResult β) :
    ∀ (l : List α) (ys : List β), mapPy g l = .ok ys →
    ys.length = l.length ∧
    ∀ i (hi : i < l.length) (hy : i < ys.length),
      g (l.get ⟨i, hi⟩) = .ok (ys.get ⟨i, hy⟩)
  | [], ys, h => by
    simp only [mapPy] at h
    injection h with h'
    subst h'
    exact ⟨rfl, fun i hi => by simp at hi⟩
  | x :: xs, ys, h => by
    simp only [mapPy] at h
    cases hx : g x with
    | error e =>
      rw [hx] at h
      cases h
    | ok y =>
      rw [hx] at h
      cases hxs : mapPy g xs with
      | error e =>
        rw [hxs] at h
        cases h
      | ok ys' =>
        rw [hxs] at h
        injection h with h'
        subst h'
        have IH := mapPy_ok_nth g xs ys' hxs
        refine ⟨by simp [IH.1], ?_⟩
        intro i hi hy
        match i with
        | 0 => exact hx
        | Nat.succ j =>
          exact IH.2 j (by simpa using hi) (by simpa using hy)

/-- C5: the long-context frequency rescaling is exactly piecewise.  For every
base inverse frequency `f` with wavelength `twoPi / f`: below the high
boundary wavelength `L / hf` the frequency is returned unchanged; above the
low boundary wavelength `L / lf` (and not below the high one, matching the
code's elif chain) it is `f / sf`; otherwise it is the linear blend with
`smooth = (L / wavelength - lf) / (hf - lf)`. -/
theorem llama3_piecewise (twoPi L sf lf hf : ℚ) (freqs ys : List ℚ)
    (hres : _compute_llama3_parameters twoPi (some L) sf lf hf freqs = .ok ys) :
    ys.length = freqs.length ∧
    ∀ i (hi : i < freqs.length) (hy : i < ys.length),
      (twoPi / freqs.get ⟨i, hi⟩ < L / hf →
        ys.get ⟨i, hy⟩ = freqs.get ⟨i, hi⟩) ∧
      (¬ twoPi / freqs.get ⟨i, hi⟩ < L / hf →
        L / lf < twoPi / freqs.get ⟨i, hi⟩ →
        ys.get ⟨i, hy⟩ = freqs.get ⟨i, hi⟩ / sf) ∧
      (¬ twoPi / freqs.get ⟨i, hi⟩ < L / hf →
        ¬ L / lf < twoPi / freqs.get ⟨i, hi⟩ →
        ys.get ⟨i, hy⟩ =
          (1 - (L / (twoPi / freqs.get ⟨i, hi⟩) - lf) / (hf - lf)) *
              freqs.get ⟨i, hi⟩ / sf +
            (L / (twoPi / freqs.get ⟨i, hi⟩) - lf) / (hf - lf) *
              freqs.get ⟨i, hi⟩) := by
  have h := mapPy_ok_nth (llama3One twoPi L sf lf hf) freqs ys
    (by simpa [_compute_llama3_parameters] using hres)
  exact ⟨h.1, fun i hi hy => llama3One_ok_cases (h.2 i hi hy)⟩

/-- C5 witness: with `twoPi = 7`, `L = 8192`, `sf = 8`, `lf = 1`, `hf = 4`,
the frequency 1/8192 has wavelength 57344 above the low boundary 8192 and is
divided by the scaling factor. -/
theorem llama3_piecewise_witness :
    (_compute_llama3_parameters 7 (some 8192) 8 1 4 [1 / 8192] =
      .ok [1 / 65536]) ∧
    (¬ (7 : ℚ) / (1 / 8192) < 8192 / 4) ∧ ((8192 : ℚ) / 1 < 7 / (1 / 8192)) ∧
    (([1 / 65536] : List ℚ).get ⟨0, by decide⟩ =
      ([1 / 8192] : List ℚ).get ⟨0, by decide⟩ / 8) :=
  ⟨by norm_num [_compute_llama3_parameters, mapPy, llama3One],
   by norm_num, by norm_num,
   ((llama3_piecewise 7 8192 8 1 4 [1 / 8192] [1 / 65536]
       (by norm_num [_compute_llama3_parameters, mapPy, llama3One])).2 0
       (by decide) (by decide)).2.1 (by norm_num) (by norm_num)⟩

/-- With equal low and high factors the loop body reduces to: keep below the
shared boundary, compress above it, assert-fail exactly on it. -/
theorem llama3One_deg (twoPi L sf l f : ℚ) :
    llama3One twoPi L sf l l f =
      (if twoPi / f < L / l then .ok f
       else if L / l < twoPi / f then .ok (f / sf)
       else .error .assertionError) := by
  simp only [llama3One]
  by_cases h1 : twoPi / f < L / l
  · rw [if_pos h1, if_pos h1]
  · rw [if_neg h1, if_neg h1]
    by_cases h2 : L / l < twoPi / f
    · rw [if_pos h2, if_pos h2]
    · rw [if_neg h2, if_neg h2]
      simp

/-- With equal factors the loop completes when no wavelength hits the shared
boundary exactly. -/
theorem mapPy_deg_ok (twoPi L sf l : ℚ) :
    ∀ fs : List ℚ,
      (∀ g ∈ fs, L / l ≤ twoPi / g → L / l < twoPi / g) →
      ∃ ys, mapPy (llama3One twoPi L sf l l) fs = .ok ys
  | [], _ => ⟨[], rfl⟩
  | f :: fs, hall => by
    obtain ⟨ys, hys⟩ := mapPy_deg_ok twoPi L sf l fs
      (fun g hg => hall g (List.mem_cons_of_mem _ hg))
    simp only [mapPy, llama3One_deg]
    by_cases h1 : twoPi / f < L / l
    · rw [if_pos h1, hys]
      exact ⟨f :: ys, rfl⟩
    · have h2 := hall f (List.mem_cons_self _ _) (not_lt.mp h1)
      rw [if_neg h1, if_pos h2, hys]
      exact ⟨f / sf :: ys, rfl⟩

/-- With equal factors, the rescaling loop raises the assertion error iff some
frequency's wavelength lands exactly on the shared boundary wavelength. -/
theorem mapPy_deg_iff (twoPi L sf l : ℚ) :
    ∀ fs : List ℚ,
      (mapPy (llama3One twoPi L sf l l) fs = .error .assertionError ↔
       ∃ f ∈ fs, ¬ twoPi / f < L / l ∧ ¬ L / l < twoPi / f)
  | [] => by simp [mapPy]
  | f :: fs => by
    have IH := mapPy_deg_iff twoPi L sf l fs
    simp only [mapPy, llama3One_deg]
    by_cases h1 : twoPi / f < L / l
    · rw [if_pos h1]
      cases hm : mapPy (llama3One twoPi L sf l l) fs with
      | ok ys =>
        simp only []
        constructor
        · intro h
          cases h
        · rintro ⟨g, hg, hc⟩
          rcases List.mem_cons.mp hg with rfl | hg'
          · exact absurd h1 hc.1
          · rw [IH.mpr ⟨g, hg', hc⟩] at hm
            cases hm
      | error e =>
        have he : e = PyErr.assertionError := by
          by_contra hne
          have : ∃ g ∈ fs, ¬ twoPi / g < L / l ∧ ¬ L / l < twoPi / g := by
            by_contra hno
            push_neg at hno
            have hok := mapPy_deg_ok twoPi L sf l fs hno
            obtain ⟨ys, hys⟩ := hok
            rw [hys] at hm
            cases hm
          rw [IH.mpr this] at hm
          injection hm with h'
          exact hne h'.symm
        subst he
        simp only []
        constructor
        · intro _
          obtain ⟨g, hg, hc⟩ := IH.mp hm
          exact ⟨g, List.mem_cons_of_mem _ hg, hc⟩
        · intro _
          trivial
    · rw [if_neg h1]
      by_cases h2 : L / l < twoPi / f
      · rw [if_pos h2]
        cases hm : mapPy (llama3One twoPi L sf l l) fs with
        | ok ys =>
          simp only []
          constructor
          · intro h
            cases h
          · rintro ⟨g, hg, hc⟩
            rcases List.mem_cons.mp hg with rfl | hg'
            · exact absurd h2 hc.2
            · rw [IH.mpr ⟨g, hg', hc⟩] at hm
              cases hm
        | error e =>
          have he : e = PyErr.assertionError := by
            by_contra hne
            have : ∃ g ∈ fs, ¬ twoPi / g < L / l ∧ ¬ L / l < twoPi / g := by
              by_contra hno
              push_neg at hno
              obtain ⟨ys, hys⟩ := mapPy_deg_ok twoPi L sf l fs hno
              rw [hys] at hm
              cases hm
            rw [IH.mpr this] at hm
            injection hm with h'
            exact hne h'.symm
          subst he
          simp only []
          constructor
          · intro _
            obtain ⟨g, hg, hc⟩ := IH.mp hm
            exact ⟨g, List.mem_cons_of_mem _ hg, hc⟩
          · intro _
            trivial
      · rw [if_neg h2]
        simp only []
        constructor
        · intro _
          exact ⟨f, List.mem_cons_self _ _, h1, h2⟩
        · intro _
          trivial

/-- C6 counterexample: two configurations on which the claim demands a setup
failure but the code completes.  First, a partially-specified long-context
configuration with only `low_freq_factor` set: the guard
`high is not None and low is not None` is false, so setup silently falls back
to uniform scaling.  Second, a degenerate configuration with
`low_freq_factor == high_freq_factor == 1` and all three fields present: the
assert sits inside the blend branch only, and with `twoPi = 7` the single
frequency 1 has wavelength 7 below the shared boundary 8192, so the loop
never reaches the assert and completes. -/
theorem config_partial_and_degenerate_ok :
    (setupFreqsTable 7 [1] (mkModelArgs { low_freq_factor := some 1 }) =
      .ok [1]) ∧
    (setupFreqsTable 7 [1]
      (mkModelArgs { low_freq_factor := some 1, high_freq_factor := some 1,
                     original_max_position_embeddings := some 8192 }) =
      .ok [1]) := by
  constructor
  · norm_num [setupFreqsTable, precompute_scale, mkModelArgs, ModelArgs.postInit]
  · norm_num [setupFreqsTable, precompute_scale, mkModelArgs, ModelArgs.postInit,
      _compute_llama3_parameters, mapPy, llama3One]

/-- C6 (amended): configuration errors at cache setup are exactly these.
When `low_freq_factor` and `high_freq_factor` are both present but
`original_max_position_embeddings` is absent, the frequency construction
fails (a TypeError on None arithmetic).  When at least one of the two factors
is absent, setup completes with uniform scaling — the all-or-nothing
invariant on the triple is not checked.  When both factors are present and
equal (with all three fields set), setup fails with the assertion error iff
some base frequency's wavelength equals the shared boundary wavelength
exactly. -/
theorem config_error_conditions :
    (∀ (twoPi : ℚ) (baseFreqs : List ℚ) (cfg : ModelArgs) (l h : ℚ),
      cfg.low_freq_factor = some l → cfg.high_freq_factor = some h →
      cfg.original_max_position_embeddings = none →
      setupFreqsTable twoPi baseFreqs cfg = .error .typeError) ∧
    (∀ (twoPi : ℚ) (baseFreqs : List ℚ) (cfg : ModelArgs),
      (cfg.high_freq_factor = none ∨ cfg.low_freq_factor = none) →
      setupFreqsTable twoPi baseFreqs cfg =
        .ok (baseFreqs.map (· / cfg.scaling_factor))) ∧
    (∀ (twoPi : ℚ) (baseFreqs : List ℚ) (cfg : ModelArgs) (l L : ℚ),
      cfg.low_freq_factor = some l → cfg.high_freq_factor = some l →
      cfg.original_max_position_embeddings = some L →
      (setupFreqsTable twoPi baseFreqs cfg = .error .assertionError ↔
       ∃ f ∈ baseFreqs, twoPi / f = L / l)) := by
  refine ⟨?_, ?_, ?_⟩
  · intro twoPi baseFreqs cfg l h hl hh ho
    rw [setupFreqsTable, if_pos (by rw [hl, hh]; rfl), hl, hh, ho]
    rfl
  · intro twoPi baseFreqs cfg hor
    rw [setupFreqsTable, if_neg ?hcond]
    · rfl
    case hcond =>
      rcases hor with hh | hl
      · rw [hh]
        simp
      · rw [hl]
        simp
  · intro twoPi baseFreqs cfg l L hl hh ho
    rw [setupFreqsTable, if_pos (by rw [hl, hh]; rfl), hl, hh, ho]
    show mapPy (llama3One twoPi L cfg.scaling_factor l l) baseFreqs =
        .error .assertionError ↔ _
    rw [mapPy_deg_iff]
    apply exists_congr
    intro f
    constructor
    · rintro ⟨hf, h1, h2⟩
      exact ⟨hf, le_antisymm (not_lt.mp h2) (not_lt.mp h1)⟩
    · rintro ⟨hf, heq⟩
      exact ⟨hf, by rw [heq]; exact lt_irrefl _, by rw [heq]; exact lt_irrefl _⟩

/-- C6 witness for the amended claim, exercising all three conjuncts: a
TypeError when the factors are present but the original context length is
not; clean uniform-scaling completion when only the low factor is present;
the assertion error when the factors are equal and the single frequency 1
has wavelength exactly on the shared boundary (`twoPi = 7`, `L = 7`,
`l = 1`). -/
theorem config_error_conditions_witness :
    (setupFreqsTable 7 [1]
      (mkModelArgs { low_freq_factor := some 1, high_freq_factor := some 4 }) =
      .error .typeError) ∧
    (setupFreqsTable 7 [1] (mkModelArgs { low_freq_factor := some 1 }) =
      .ok ([1].map
        (· / (mkModelArgs { low_freq_factor := some 1 }).scaling_factor))) ∧
    (setupFreqsTable 7 [1]
      (mkModelArgs { low_freq_factor := some 1, high_freq_factor := some 1,
                     original_max_position_embeddings := some 7 }) =
      .error .assertionError) :=
  ⟨config_error_conditions.1 7 [1] _ 1 4 rfl rfl rfl,
   config_error_conditions.2.1 7 [1] _ (Or.inl rfl),
   (config_error_conditions.2.2 7 [1] _ 1 7 rfl rfl rfl).mpr
     ⟨1, List.mem_singleton_self 1, by norm_num⟩⟩

/-- The head of a list sorted by descending key length bounds every element. -/
theorem sorted_head_ge {a : List Char × ModelArgs}
    {s : List (List Char × ModelArgs)} (hs : List.Sorted keyLenGe (a :: s)) :
    ∀ x ∈ a :: s, x.1.length ≤ a.1.length := by
  intro x hx
  rcases List.mem_cons.mp hx with rfl | hx'
  · exact le_refl _
  · exact (List.sorted_cons.mp hs).1 x hx'

/-- Two distinct members force a list length of at least two. -/
theorem two_mem_one_lt_length {β : Type} {p q : β} {M : List β}
    (hp : p ∈ M) (hq : q ∈ M) (hne : p ≠ q) : 1 < M.length := by
  match M with
  | [] => cases hp
  | [a] =>
    rw [List.mem_singleton] at hp hq
    exact absurd (hp.trans hq.symm) hne
  | a :: b :: t =>
    show 1 < t.length + 1 + 1
    omega

/-- The configuration table holds pairwise distinct keys. -/
theorem transformer_configs_keys_nodup : (transformer_configs.map Prod.fst).Nodup := by
  decide

/-- C7: named configuration resolution.  An exact table key resolves to its
config.  Otherwise the candidates are the keys occurring case-insensitively
inside the name: resolution raises IndexError when no key matches, raises the
assertion error when two distinct matches of maximal key length exist, and
returns the config of the strictly longest match otherwise; in particular
`from_name "unknown-model-xyz"` fails with IndexError. -/
theorem from_name_resolution (name : List Char) :
    (∀ p, transformer_configs.find? (fun q => q.1 == name) = some p →
      from_name name = .ok p.2) ∧
    (transformer_configs.find? (fun q => q.1 == name) = none →
      fuzzyMatches name = [] → from_name name = .error .indexError) ∧
    (transformer_configs.find? (fun q => q.1 == name) = none →
      ∀ p ∈ fuzzyMatches name,
        (∀ q ∈ fuzzyMatches name, q ≠ p → q.1.length < p.1.length) →
        from_name name = .ok p.2) ∧
    (transformer_configs.find? (fun q => q.1 == name) = none →
      ∀ p q, p ∈ fuzzyMatches name → q ∈ fuzzyMatches name → p ≠ q →
        p.1.length = q.1.length →
        (∀ r ∈ fuzzyMatches name, r.1.length ≤ p.1.length) →
        from_name name = .error .assertionError) ∧
    from_name ("unknown-model-xyz".toList) = .error .indexError := by
  have hperm := List.perm_insertionSort keyLenGe (fuzzyMatches name)
  have hsort := List.sorted_insertionSort keyLenGe (fuzzyMatches name)
  have hnodup : (fuzzyMatches name).Nodup :=
    (transformer_configs_keys_nodup.of_map).filter _
  refine ⟨?_, ?_, ?_, ?_, ?_⟩
  · intro p hfind
    simp [from_name, hfind]
  · intro hfind hM
    simp [from_name, hfind, hM]
  · intro hfind p hp hstrict
    by_cases hlen : 1 < (fuzzyMatches name).length
    · obtain ⟨a, b, t, hs⟩ : ∃ a b t,
          List.insertionSort keyLenGe (fuzzyMatches name) = a :: b :: t := by
        have hslen := hperm.length_eq
        match hsl : List.insertionSort keyLenGe (fuzzyMatches name), hslen with
        | [], h => simp at h; omega
        | [a], h => simp at h; omega
        | a :: b :: t, _ => exact ⟨a, b, t, rfl⟩
      have hsorted2 : List.Sorted keyLenGe (a :: b :: t) := hs ▸ hsort
      have hmax : ∀ x ∈ fuzzyMatches name, x.1.length ≤ a.1.length := by
        intro x hx
        exact sorted_head_ge hsorted2 x (hs ▸ hperm.mem_iff.mpr hx)
      have ha_mem : a ∈ fuzzyMatches name :=
        hperm.mem_iff.mp (hs ▸ List.mem_cons_self a (b :: t))
      have hb_mem : b ∈ fuzzyMatches name :=
        hperm.mem_iff.mp (hs ▸ List.mem_cons_of_mem a (List.mem_cons_self b t))
      have hap : a = p := by
        by_contra hne
        exact absurd (hmax p hp) (not_le.mpr (hstrict a ha_mem hne))
      have hsnodup : (a :: b :: t).Nodup := hs ▸ (hperm.nodup_iff.mpr hnodup)
      have hab : a ≠ b := by
        intro h
        exact (List.nodup_cons.mp hsnodup).1 (h ▸ List.mem_cons_self b t)
      have hblt : b.1.length < p.1.length :=
        hstrict b hb_mem (fun h => hab (hap.trans h.symm))
      have hne_len : ¬ a.1.length = b.1.length := by
        rw [hap]
        omega
      simp only [from_name, hfind]
      rw [if_pos hlen, hs]
      dsimp only
      rw [if_neg hne_len, hap]
    · have hMp : fuzzyMatches name = [p] := by
        match hM : fuzzyMatches name, hp, hlen with
        | [], hp, _ => cases hp
        | [a], hp, _ =>
          rw [List.mem_singleton] at hp
          rw [hp]
        | a :: b :: t, _, hlen =>
          exact absurd (by show 1 < t.length + 1 + 1; omega) hlen
      simp [from_name, hfind, hMp]
  · intro hfind p q hp hq hpq hplen hmaxall
    have hlen : 1 < (fuzzyMatches name).length := two_mem_one_lt_length hp hq hpq
    obtain ⟨a, b, t, hs⟩ : ∃ a b t,
        List.insertionSort keyLenGe (fuzzyMatches name) = a :: b :: t := by
      have hslen := hperm.length_eq
      match hsl : List.insertionSort keyLenGe (fuzzyMatches name), hslen with
      | [], h => simp at h; omega
      | [a], h => simp at h; omega
      | a :: b :: t, _ => exact ⟨a, b, t, rfl⟩
    have hsorted2 : List.Sorted keyLenGe (a :: b :: t) := hs ▸ hsort
    have hmax : ∀ x ∈ fuzzyMatches name, x.1.length ≤ a.1.length := by
      intro x hx
      exact sorted_head_ge hsorted2 x (hs ▸ hperm.mem_iff.mpr hx)
    have ha_mem : a ∈ fuzzyMatches name :=
      hperm.mem_iff.mp (hs ▸ List.mem_cons_self a (b :: t))
    have hb_mem : b ∈ fuzzyMatches name :=
      hperm.mem_iff.mp (hs ▸ List.mem_cons_of_mem a (List.mem_cons_self b t))
    have htail_le : ∀ x ∈ b :: t, x.1.length ≤ b.1.length :=
      sorted_head_ge (List.sorted_cons.mp hsorted2).2
    have haeq : a.1.length = p.1.length :=
      le_antisymm (hmaxall a ha_mem) (by
        have hp_s : p ∈ a :: b :: t := hs ▸ hperm.mem_iff.mpr hp
        exact sorted_head_ge hsorted2 p hp_s)
    have hr : ∃ r, r ∈ b :: t ∧ r.1.length = p.1.length := by
      have hp_s : p ∈ a :: b :: t := hs ▸ hperm.mem_iff.mpr hp
      have hq_s : q ∈ a :: b :: t := hs ▸ hperm.mem_iff.mpr hq
      rcases List.mem_cons.mp hp_s with rfl | hp_t
      · rcases List.mem_cons.mp hq_s with rfl | hq_t
        · exact absurd rfl hpq
        · exact ⟨q, hq_t, hplen.symm⟩
      · exact ⟨p, hp_t, rfl⟩
    obtain ⟨r, hr_mem, hr_len⟩ := hr
    have hbeq : a.1.length = b.1.length := by
      have h1 : r.1.length ≤ b.1.length := htail_le r hr_mem
      have h2 : b.1.length ≤ p.1.length := hmaxall b hb_mem
      omega
    simp only [from_name, hfind]
    rw [if_pos hlen, hs]
    dsimp only
    rw [if_pos hbeq]
  · decide

/-- C7 witness: "llama-3.1-8b-instruct" misses the table exactly, fuzzy-matches
the single key "llama-3.1-8b" (trivially the strict-longest match), and
resolves to that key's config. -/
theorem from_name_resolution_witness :
    (transformer_configs.find?
        (fun q => q.1 == "llama-3.1-8b-instruct".toList) = none) ∧
    from_name ("llama-3.1-8b-instruct".toList) = .ok cfg_llama_3_1_8b := by
  have hM : fuzzyMatches ("llama-3.1-8b-instruct".toList) =
      [("llama-3.1-8b".toList, cfg_llama_3_1_8b)] := rfl
  refine ⟨rfl, ?_⟩
  refine (from_name_resolution ("llama-3.1-8b-instruct".toList)).2.2.1 rfl
    ("llama-3.1-8b".toList, cfg_llama_3_1_8b) ?_ ?_
  · rw [hM]
    exact List.mem_singleton_self _
  · intro q hq hne
    rw [hM, List.mem_singleton] at hq
    exact absurd hq hne

/-- C8: in `draft_prefill`, the keys returned by the streaming-cache append
(of length L) are rotated with the re-indexed local positions 0..L-1 of
`streaming_freqs` — the table rows at positions `range L` — while the queries
are rotated with the caller-selected `freqs_cis[input_pos]` rows; exactly
when `is_last` is true the rotated keys are written back over positions
[0, L) of the persistent draft key cache, and the draft value cache is left
as the plain append produced it in either case. -/
theorem draft_prefill_rotation (budget : Nat) (globalFreqs : Nat → List (ℚ × ℚ))
    (inputFreqs : List (List (ℚ × ℚ))) (c : Nat)
    (qIn kIn vIn kBuf vBuf : List (List (ℚ × ℚ))) (is_last : Bool) :
    (draft_prefill_attn budget globalFreqs inputFreqs c qIn kIn vIn kBuf vBuf
        is_last).kRot =
      List.zipWith rotVec
        ((List.range (streamWrite budget c kIn.length kIn kBuf).2.length).map
          globalFreqs)
        (streamWrite budget c kIn.length kIn kBuf).2 ∧
    (draft_prefill_attn budget globalFreqs inputFreqs c qIn kIn vIn kBuf vBuf
        is_last).qRot = List.zipWith rotVec inputFreqs qIn ∧
    (is_last = true →
      (draft_prefill_attn budget globalFreqs inputFreqs c qIn kIn vIn kBuf vBuf
          is_last).kCache =
        (draft_prefill_attn budget globalFreqs inputFreqs c qIn kIn vIn kBuf
            vBuf is_last).kRot ++
          ((streamWrite budget c kIn.length kIn kBuf).1).drop
            (draft_prefill_attn budget globalFreqs inputFreqs c qIn kIn vIn
              kBuf vBuf is_last).kRot.length) ∧
    (is_last = false →
      (draft_prefill_attn budget globalFreqs inputFreqs c qIn kIn vIn kBuf vBuf
          is_last).kCache = (streamWrite budget c kIn.length kIn kBuf).1) ∧
    (draft_prefill_attn budget globalFreqs inputFreqs c qIn kIn vIn kBuf vBuf
        is_last).vCache = (streamWrite budget c kIn.length vIn vBuf).1 ∧
    (draft_prefill_attn budget globalFreqs inputFreqs c qIn kIn vIn kBuf vBuf
        is_last).vRet = (streamWrite budget c kIn.length vIn vBuf).2 := by
  have hL : (streamWrite budget c kIn.length kIn kBuf).2.length ≤ budget :=
    streamWrite_ret_le _ _ _ _ _
  have htake : ((List.range budget).map globalFreqs).take
      (streamWrite budget c kIn.length kIn kBuf).2.length =
      (List.range (streamWrite budget c kIn.length kIn kBuf).2.length).map
        globalFreqs := by
    rw [← List.map_take, List.take_range, min_eq_left hL]
  refine ⟨?_, rfl, ?_, ?_, rfl, rfl⟩
  · show List.zipWith rotVec
      (((List.range budget).map globalFreqs).take
        (streamWrite budget c kIn.length kIn kBuf).2.length)
      (streamWrite budget c kIn.length kIn kBuf).2 = _
    rw [htake]
  · intro h
    subst h
    rfl
  · intro h
    subst h
    rfl

/-- C8 witness: a concrete final-chunk call on a budget-2 cache writes the
locally rotated keys back over the front of the draft key cache. -/
theorem draft_prefill_rotation_witness :
    ((true : Bool) = true) ∧
    (draft_prefill_attn 2 (fun i => [((i : ℚ), 1)]) [[(2, 3)]] 0 [[(1, 1)]]
        [[(1, 2)]] [[(5, 5)]] [[(0, 0)], [(0, 0)]] [[(0, 0)], [(0, 0)]]
        true).kCache =
      (draft_prefill_attn 2 (fun i => [((i : ℚ), 1)]) [[(2, 3)]] 0 [[(1, 1)]]
          [[(1, 2)]] [[(5, 5)]] [[(0, 0)], [(0, 0)]] [[(0, 0)], [(0, 0)]]
          true).kRot ++
        ((streamWrite 2 0 1 [[((1 : ℚ), 2)]] [[(0, 0)], [(0, 0)]]).1).drop
          (draft_prefill_attn 2 (fun i => [((i : ℚ), 1)]) [[(2, 3)]] 0
            [[(1, 1)]] [[(1, 2)]] [[(5, 5)]] [[(0, 0)], [(0, 0)]]
            [[(0, 0)], [(0, 0)]] true).kRot.length :=
  ⟨rfl,
   (draft_prefill_rotation 2 (fun i => [((i : ℚ), 1)]) [[(2, 3)]] 0 [[(1, 1)]]
     [[(1, 2)]] [[(5, 5)]] [[(0, 0)], [(0, 0)]] [[(0, 0)], [(0, 0)]]
     true).2.2.1 rfl⟩

end MagicDec
